import Mathlib

/- Verification of the pixyz core slice: the autoregressive loss family
   (pixyz/losses/autoregressive.py) and the mixture-of-distributions engine
   (pixyz/distributions/mixture_distributions.py), embedded shallowly. -/

namespace Pixyz

/-! Autoregressive losses.

The AR-loss layer threads a Python dict of tensors through a bounded loop and
performs only field arithmetic on the scalar loss values, so tensor scalars are
modelled exactly over `ℚ` (keeping every definition computable).  Tensors of
rank at most two suffice for the slicing this slice performs (`v[t]` drops one
leading axis); higher ranks never occur in the code paths under study. -/

/-- Python value stored in an AR-loss state dict: a scalar, a rank-1 tensor or
a rank-2 tensor.  `v[t]` (leading-axis indexing) drops one rank. -/
inductive PyVal where
  | scalar : ℚ → PyVal
  | vec : List ℚ → PyVal
  | mat : List (List ℚ) → PyVal
deriving DecidableEq

/-- Leading-axis indexing `v[t]` on a Python tensor.  Indexing a scalar raises
in Python; the embedding keeps the function total by returning the scalar
unchanged, and no claim exercises that case. -/
def PyVal.getitem (t : Nat) : PyVal → PyVal
  | .scalar q => .scalar q
  | .vec v => .scalar (v.getD t 0)
  | .mat m => .vec (m.getD t [])

/-- State dict threaded through an AR loss: an association list from variable
name to value, looked up by first occurrence. -/
abbrev SDict := List (String × PyVal)

/-- Python `x.update(d)`: on lookup, keys of `d` win over keys of `x`.
Prepending `d` gives exactly that lookup semantics. -/
def SDict.update (x d : SDict) : SDict := d ++ x

/-- Modelled from the spec: `get_dict_values` lives in `pixyz/utils.py`, which
is outside this slice.  Per the external-interface description it selects from
the input dict the entries named by the given variable list (the AR losses
always call it with `return_dict=True`). -/
def get_dict_values (x : SDict) (var_list : List String) : SDict :=
  var_list.filterMap (fun k => (x.lookup k).map (fun v => (k, v)))

/-- External `Loss` collaborator (pixyz.losses.losses.Loss), reduced to the
interface the AR losses consume: declared input variables and a scalar-valued
estimate of a state dict.  The base pre-processing hook `Loss.estimate` is
modelled as the identity, as the spec directs for the opaque hook. -/
structure LossObj where
  input_var : List String
  estimate : SDict → ℚ

/-- Order-preserving de-duplication keeping first occurrences: the embedding of
Python `sorted(set(l), key=l.index)`. -/
def dedupFirst : List String → List String
  | [] => []
  | a :: t => a :: dedupFirst (t.filter (fun b => b ≠ a))
termination_by l => l.length
decreasing_by
  simp only [List.length_cons]
  exact Nat.lt_succ_of_le (List.length_filter_le _ t)

/-- Configuration assembled by `ARLoss.__init__` (fields of the Python
object). -/
structure ARLoss where
  step_loss : Option LossObj
  last_loss : Option LossObj
  step_fn : Nat → SDict → SDict
  max_iter : Nat
  return_params : Bool
  initial_var : Option (List String)
  input_var : List String

/-- Embedding of `ARLoss.__init__`: stores the sub-losses, step function,
iteration bound and flags verbatim; the declared `input_var` is the explicit
argument when supplied, otherwise the first-occurrence de-duplication of the
last-loss inputs followed by the step-loss inputs (absent sub-losses
contribute nothing).  The parameter order `input_var` then `initial_var`
mirrors the Python signature, which matters for positional super-calls. -/
def ARLoss.init (step_loss last_loss : Option LossObj) (step_fn : Nat → SDict → SDict)
    (max_iter : Nat) (return_params : Bool)
    (input_var initial_var : Option (List String)) : ARLoss :=
  { step_loss := step_loss
    last_loss := last_loss
    step_fn := step_fn
    max_iter := max_iter
    return_params := return_params
    initial_var := initial_var
    input_var :=
      match input_var with
      | some iv => iv
      | none =>
          dedupFirst
            ((match last_loss with | some l => l.input_var | none => []) ++
             (match step_loss with | some s => s.input_var | none => [])) }

/-- Embedding of `ARDRAWLoss.__init__`.  Its own signature takes
`initial_var` before `input_var`, yet it forwards them positionally to
`ARLoss.__init__`, whose corresponding slots are `input_var` then
`initial_var`: the two arguments land in each other's slots. -/
def ARDRAWLoss.init (step_loss last_loss : Option LossObj) (step_fn : Nat → SDict → SDict)
    (max_iter : Nat) (return_params : Bool)
    (initial_var input_var : Option (List String)) : ARLoss :=
  ARLoss.init step_loss last_loss step_fn max_iter return_params initial_var input_var

/-- Result of an AR-loss `estimate`: the scalar, or the pair of the scalar and
the final state dict when `return_params` is configured. -/
inductive ARResult where
  | scalar : ℚ → ARResult
  | withParams : ℚ → SDict → ARResult
deriving DecidableEq

/-- Loop body of `ARDRAWLoss.estimate`: accumulate `step_loss.estimate` on the
current state, then advance the state with `step_fn`.  Dereferencing an absent
(`None`) sub-loss is a fatal Python `AttributeError`, modelled by the `Option`
monad. -/
def ARDRAWLoss.stepFold (self : ARLoss) (p : ℚ × SDict) (i : Nat) : Option (ℚ × SDict) := do
  let sl ← self.step_loss
  pure (p.1 + sl.estimate p.2, self.step_fn i p.2)

/-- Embedding of `ARDRAWLoss.estimate`.  The base hook is the identity; the
loop runs for `i = 0 .. max_iter - 1`; after the loop `last_loss.estimate` is
added unconditionally (fatal when `last_loss` is absent). -/
def ARDRAWLoss.estimate (self : ARLoss) (x : SDict) : Option ARResult := do
  let p ← (List.range self.max_iter).foldlM (ARDRAWLoss.stepFold self) ((0 : ℚ), x)
  let ll ← self.last_loss
  let loss := p.1 + ll.estimate p.2
  if self.return_params then pure (.withParams loss p.2) else pure (.scalar loss)

/-- Configuration assembled by `ARSeriesLoss.__init__`. -/
structure ARSeriesLoss extends ARLoss where
  series_var : List String
  non_series_var : List String

/-- Embedding of `ARSeriesLoss.__init__`: forwards its `input_var` argument
positionally into the matching `input_var` slot of the base constructor
(leaving `initial_var` at its `None` default) and stores `series_var`.
`non_series_var` is Python `list(set(input_var) - set(series_var))`, whose
order is unspecified; it is modelled order-preservingly and no claim depends
on it. -/
def ARSeriesLoss.init (step_loss last_loss : Option LossObj) (step_fn : Nat → SDict → SDict)
    (max_iter : Nat) (return_params : Bool)
    (series_var : List String) (input_var : Option (List String)) : ARSeriesLoss :=
  let base := ARLoss.init step_loss last_loss step_fn max_iter return_params input_var none
  { toARLoss := base
    series_var := series_var
    non_series_var := (dedupFirst base.input_var).filter (fun v => v ∉ series_var) }

/-- Embedding of `ARSeriesLoss.slice_step_from_inputs`: maps every entry of a
dict of series tensors to its slice at leading index `t`. -/
def ARSeriesLoss.slice_step_from_inputs (t : Nat) (x : SDict) : SDict :=
  x.map (fun kv => (kv.1, kv.2.getitem t))

/-- Loop body of `ARSeriesLoss.estimate`: overwrite the series entries of the
state with their slice at `t`, apply the user transition, and only then
accumulate `step_loss.estimate` on the post-transition state. -/
def ARSeriesLoss.stepFold (self : ARSeriesLoss) (series_x : SDict) (p : ℚ × SDict)
    (t : Nat) : Option (ℚ × SDict) :=
  let x1 := SDict.update p.2 (ARSeriesLoss.slice_step_from_inputs t series_x)
  let x2 := self.step_fn t x1
  do
    let sl ← self.step_loss
    pure (p.1 + sl.estimate x2, x2)

/-- Embedding of `ARSeriesLoss.estimate`, continued: the loop runs for
`t = 0 .. max_iter - 1`; a present `last_loss` is evaluated after re-slicing
the series entries at index 0; with `return_params` the untouched full series
dict is merged back before the state is returned. -/
def ARSeriesLoss.estimate (self : ARSeriesLoss) (x : SDict) : Option ARResult := do
  let series_x := get_dict_values x self.series_var
  let p ← (List.range self.max_iter).foldlM (self.stepFold series_x) ((0 : ℚ), x)
  match self.last_loss with
  | some ll =>
      let xl := SDict.update p.2 (ARSeriesLoss.slice_step_from_inputs 0 series_x)
      let loss := p.1 + ll.estimate xl
      if self.return_params then pure (.withParams loss (SDict.update xl series_x))
      else pure (.scalar loss)
  | none =>
      if self.return_params then pure (.withParams p.1 (SDict.update p.2 series_x))
      else pure (.scalar p.1)

/-- State reached by `ARDRAWLoss.estimate` after `n` transitions: the input
dict advanced by `step_fn 0, …, step_fn (n-1)` in order. -/
def drawState (self : ARLoss) (x : SDict) : Nat → SDict
  | 0 => x
  | n + 1 => self.step_fn n (drawState self x n)

/-- State reached by `ARSeriesLoss.estimate` after `t` loop steps: each step
first overwrites the series entries with their slice at the step index and
then applies the user transition. -/
def seriesState (self : ARSeriesLoss) (x : SDict) : Nat → SDict
  | 0 => x
  | t + 1 =>
      self.step_fn t
        (SDict.update (seriesState self x t)
          (ARSeriesLoss.slice_step_from_inputs t (get_dict_values x self.series_var)))

/-! MixtureModel.

Tensors are modelled over `ℝ` because the mixture engine manipulates log- and
exp-transformed values.  A 1-D tensor is a list of reals; the batch passed to
`log_likelihood` is the tensor bound to the mixture's single shared variable
(each list entry one example), so the input dict of the Python methods is
represented by that tensor directly. -/

/-- Rank-1 real tensor. -/
abbrev Tensor := List ℝ

/-- External `Distribution` collaborator, reduced to the call shapes the
mixture engine uses.  The single dict-based `log_likelihood` of the interface
is specialised to its two uses: `log_likelihood` evaluates a component on the
batch of the shared variable (per-example log-densities), and
`prior_log_likelihood` evaluates the prior on one hidden one-hot vector,
yielding the scalar that broadcast-adds over the batch.  `probs` stands for
`get_params()["probs"]`; `sample_hidden` and `sample_var` are the draws of an
external randomness source, indexed by the draw counter. -/
structure Dist where
  name : String
  var : List String
  distribution_name : String
  probs : Tensor
  log_likelihood : Tensor → Tensor
  prior_log_likelihood : Tensor → ℝ
  sample_hidden : Nat → Tensor
  sample_var : Nat → ℝ

/-- Placeholder distribution used as the default of total list indexing; a
Python index error would be raised where it could ever be produced. -/
def defaultDist : Dist :=
  { name := ""
    var := []
    distribution_name := ""
    probs := []
    log_likelihood := fun _ => []
    prior_log_likelihood := fun _ => 0
    sample_hidden := fun _ => []
    sample_var := fun _ => 0 }

/-- Constructor argument for the `distributions` parameter: Python is
dynamically typed, so the caller may pass a list or a value of any other
runtime type (`notList`), which `isinstance(distributions, list)` rejects. -/
inductive DistsArg where
  | list : List Dist → DistsArg
  | notList : DistsArg

/-- Names of the four distinct fatal constructor failures, one per `raise`
site of `MixtureModel.__init__`, named per the spec's error taxonomy. -/
inductive MixtureError where
  | InvalidArgument
  | InvalidPrior
  | MixtureSizeMismatch
  | HeterogeneousVariable
deriving DecidableEq

/-- Fields stored by a successfully constructed mixture. -/
structure MixtureModel where
  distributions : List Dist
  prior : Dist
  var : List String
  hidden_var : List String
  name : String

/-- Embedding of `MixtureModel.__init__`: in order, (1) `distributions` must
be a list, (2) the prior must be categorical, (3) the prior's `probs` must
have as many entries as there are components, (4) the components' variable
lists, concatenated and de-duplicated, must contain exactly one name; on
success the components, prior, shared variable and the prior's hidden
variable are stored.  Python `list(set(var_list))` has unspecified order;
only its length is tested and only the length-1 case survives, so the
first-occurrence de-duplication is equivalent. -/
def MixtureModel.init (distributions : DistsArg) (prior : Dist) (name : String) :
    Except MixtureError MixtureModel :=
  match distributions with
  | .notList => .error .InvalidArgument
  | .list ds =>
      if prior.distribution_name ≠ "Categorical" then .error .InvalidPrior
      else if prior.probs.length ≠ ds.length then .error .MixtureSizeMismatch
      else
        let var_list := dedupFirst (ds.foldl (fun acc d => acc ++ d.var) [])
        if var_list.length ≠ 1 then .error .HeterogeneousVariable
        else .ok
          { distributions := ds
            prior := prior
            var := var_list
            hidden_var := prior.var
            name := name }

/-- Row `i` of `torch.eye K`: the one-hot encoding of index `i`. -/
def oneHot (K i : Nat) : Tensor :=
  (List.range K).map (fun j => if j = i then (1 : ℝ) else 0)

/-- Embedding of `MixtureModel.log_likelihood_all_hidden`: for every component
index `i`, the prior's log-probability of the one-hot of `i` broadcast-added
to component `i`'s per-example log-likelihoods of the batch; the K rows are
stacked along a new leading axis.  The component list is enumerated by index,
as the Python for-loop does. -/
noncomputable def MixtureModel.log_likelihood_all_hidden
    (self : MixtureModel) (x_dict : Tensor) : List Tensor :=
  (List.range self.distributions.length).map (fun i =>
    let prior_loglike :=
      self.prior.prior_log_likelihood (oneHot self.distributions.length i)
    let loglike := (self.distributions.getD i defaultDist).log_likelihood x_dict
    loglike.map (fun a => a + prior_loglike))

/-- Embedding of `torch.logsumexp` on one vector, per the kernel's
numerically stable algorithm: the maximum is subtracted before
exponentiating, and added back after the logarithm.  The empty case (torch:
`-inf`) never arises here, as every mixture has at least one component. -/
noncomputable def logsumexp : Tensor → ℝ
  | [] => 0
  | a :: t =>
      let M := t.foldl max a
      M + Real.log (((a :: t).map (fun b => Real.exp (b - M))).sum)

/-- Embedding of `torch.logsumexp(rows, 0)` on a stacked (K, batch) tensor:
the stable log-sum-exp of every batch column. -/
noncomputable def logsumexp_dim0 (rows : List Tensor) : Tensor :=
  (List.range (rows.headD []).length).map (fun j =>
    logsumexp (rows.map (fun r => r.getD j 0)))

/-- Embedding of `MixtureModel.log_likelihood`: `torch.logsumexp` along the
component axis of the joint table. -/
noncomputable def MixtureModel.log_likelihood (self : MixtureModel) (x_dict : Tensor) :
    Tensor :=
  logsumexp_dim0 (self.log_likelihood_all_hidden x_dict)

/-- Embedding of `MixtureModel.get_posterior_probs`: the joint log-table minus
the broadcast marginal log-likelihood, exponentiated only at the end. -/
noncomputable def MixtureModel.get_posterior_probs (self : MixtureModel) (x_dict : Tensor) :
    List Tensor :=
  let loglike := (self.log_likelihood_all_hidden x_dict).map (fun row =>
    List.zipWith (fun a b => a - b) row (self.log_likelihood x_dict))
  loglike.map (fun row => row.map Real.exp)

/-- Embedding of `tensor.argmax(dim=-1)` on one vector: the index of the first
maximal entry, via a running best index and best value. -/
noncomputable def argmaxAux : List ℝ → Nat → Nat → ℝ → Nat
  | [], _, bi, _ => bi
  | a :: t, i, bi, bv => if bv < a then argmaxAux t (i + 1) i a else argmaxAux t (i + 1) bi bv

/-- Index of the first maximal entry of a vector (0 on the empty vector). -/
noncomputable def Tensor.argmax : Tensor → Nat
  | [] => 0
  | a :: t => argmaxAux t 1 0 a

/-- Return value of `MixtureModel.sample`: the dict holding the concatenated
primary-variable draws and, exactly when `return_hidden` is requested, the
concatenated hidden draws. -/
structure SampleOutput where
  varOut : Tensor
  hiddenOut : Option (List Tensor)

/-- Embedding of `MixtureModel.sample`: for each of `batch_size` draws, a
hidden vector is drawn from the prior and appended to the hidden outputs, and
one primary-variable sample is drawn from the component selected by the
arg-max of that hidden vector and appended to the variable outputs; both
accumulated lists are the batch-axis concatenations of the per-draw rows, and
the hidden one is returned exactly when `return_hidden` is true. -/
noncomputable def MixtureModel.sampleStep (self : MixtureModel)
    (acc : List Tensor × List ℝ) (i : Nat) : List Tensor × List ℝ :=
  let hidden := self.prior.sample_hidden i
  (acc.1 ++ [hidden],
   acc.2 ++ [(self.distributions.getD (Tensor.argmax hidden) defaultDist).sample_var i])

/-- Embedding of `MixtureModel.sample`, continued: the per-draw rows are
accumulated over `i = 0 .. batch_size - 1` and the hidden list is returned
exactly when `return_hidden` is true. -/
noncomputable def MixtureModel.sample (self : MixtureModel) (batch_size : Nat)
    (return_hidden : Bool) : SampleOutput :=
  let r := (List.range batch_size).foldl (self.sampleStep) ([], [])
  { varOut := r.2
    hiddenOut := if return_hidden then some r.1 else none }

/-- Transposition of two indices: `swapIdx a b` exchanges `a` and `b` and
fixes every other index. -/
def swapIdx (a b i : Nat) : Nat := if i = a then b else if i = b then a else i

/-- The component list with the entries at positions `a` and `b` exchanged,
expressed by re-indexing through `swapIdx`. -/
def swapList (l : List Dist) (a b : Nat) : List Dist :=
  (List.range l.length).map (fun i => l.getD (swapIdx a b i) defaultDist)

/-! Concrete instances used by the witness theorems. -/

/-- Loss returning a constant, with no declared inputs. -/
def constLoss (q : ℚ) : LossObj := { input_var := [], estimate := fun _ => q }

/-- Loss returning the first entry of the rank-1 tensor currently bound to
the series variable `x` (the per-step slice value). -/
def sliceValLoss : LossObj :=
  { input_var := ["x"]
    estimate := fun d =>
      match d.lookup "x" with
      | some (PyVal.vec v) => v.getD 0 0
      | _ => 0 }

/-- Identity step transition. -/
def idStep : Nat → SDict → SDict := fun _ x => x

/-- DRAW loss with three unit steps and a constant terminal loss. -/
def drawL3 : ARLoss :=
  ARDRAWLoss.init (some (constLoss 1)) (some (constLoss 2)) idStep 3 false none none

/-- DRAW loss configured without a terminal loss. -/
def drawLnone : ARLoss :=
  ARDRAWLoss.init (some (constLoss 1)) none idStep 2 false none none

/-- Series loss over two time steps with no terminal loss. -/
def seriesL2 : ARSeriesLoss :=
  ARSeriesLoss.init (some sliceValLoss) none idStep 2 false ["x"] none

/-- Series loss over two time steps with a terminal loss and
`return_params`. -/
def seriesL5 : ARSeriesLoss :=
  ARSeriesLoss.init (some sliceValLoss) (some (constLoss 2)) idStep 2 true ["x"] none

/-- Series input dict: the variable `x` bound to the two-step series
`[[1.0], [2.0]]`. -/
def xSeries : SDict := [("x", PyVal.mat [[1], [2]])]

/-- Concrete mixture component whose log-likelihood is the identity on the
batch. -/
def compId (nm : String) : Dist :=
  { name := nm
    var := ["x"]
    distribution_name := "Normal"
    probs := []
    log_likelihood := fun t => t
    prior_log_likelihood := fun _ => 0
    sample_hidden := fun _ => []
    sample_var := fun _ => 0 }

/-- Concrete mixture component whose log-likelihood shifts the batch by 1. -/
def compShift (nm : String) : Dist :=
  { name := nm
    var := ["x"]
    distribution_name := "Normal"
    probs := []
    log_likelihood := fun t => t.map (fun a => a + 1)
    prior_log_likelihood := fun _ => 0
    sample_hidden := fun _ => []
    sample_var := fun _ => 0 }

/-- Concrete two-category prior whose log-likelihood of a hidden vector is the
dot product with the weight pair `(w0, w1)`, so that the one-hot of index 0
scores `w0` and the one-hot of index 1 scores `w1`. -/
noncomputable def priorW (w0 w1 : ℝ) : Dist :=
  { name := "prior"
    var := ["z"]
    distribution_name := "Categorical"
    probs := [1, 1]
    log_likelihood := fun _ => []
    prior_log_likelihood := fun v => v.getD 0 0 * w0 + v.getD 1 0 * w1
    sample_hidden := fun i => oneHot 2 (i % 2)
    sample_var := fun _ => 0 }

/-- Concrete two-component mixture with weights 3 and 5. -/
noncomputable def mixW : MixtureModel :=
  { distributions := [compId "p_0", compShift "p_1"]
    prior := priorW 3 5
    var := ["x"]
    hidden_var := ["z"]
    name := "p" }

/-- The mixture `mixW` with its two components and the two prior weights
swapped. -/
noncomputable def mixWswap : MixtureModel :=
  { distributions := [compShift "p_1", compId "p_0"]
    prior := priorW 5 3
    var := ["x"]
    hidden_var := ["z"]
    name := "p" }

/-- Concrete one-example batch for the mixture witnesses. -/
noncomputable def xBatch : Tensor := [0]

/-! Helper lemmas for the AR-loss loops. -/

theorem drawFold (self : ARLoss) (sl : LossObj) (hs : self.step_loss = some sl)
    (x : SDict) (n : Nat) :
    (List.range n).foldlM (ARDRAWLoss.stepFold self) ((0 : ℚ), x) =
      some (((List.range n).map (fun i => sl.estimate (drawState self x i))).sum,
        drawState self x n) := by
  induction n with
  | zero => simp [drawState]
  | succ n ih =>
      rw [List.range_succ, List.foldlM_append, ih]
      simp [ARDRAWLoss.stepFold, hs, drawState, List.range_succ]

theorem seriesFold (self : ARSeriesLoss) (sl : LossObj) (hs : self.step_loss = some sl)
    (x : SDict) (n : Nat) :
    (List.range n).foldlM (self.stepFold (get_dict_values x self.series_var))
        ((0 : ℚ), x) =
      some (((List.range n).map (fun t => sl.estimate (seriesState self x (t + 1)))).sum,
        seriesState self x n) := by
  induction n with
  | zero => simp [seriesState]
  | succ n ih =>
      rw [List.range_succ, List.foldlM_append, ih]
      simp [ARSeriesLoss.stepFold, hs, seriesState, List.range_succ]

theorem lookup_get_dict_values_of_mem (x : SDict) (l : List String) (k : String)
    (v : PyVal) (hk : k ∈ l) (hv : x.lookup k = some v) :
    (get_dict_values x l).lookup k = some v := by
  induction l with
  | nil => cases hk
  | cons a t ih =>
      by_cases hka : k = a
      · subst hka
        simp [get_dict_values, List.filterMap_cons, hv, List.lookup_cons]
      · have hkt : k ∈ t := by
          rcases List.mem_cons.mp hk with h | h
          · exact absurd h hka
          · exact h
        have hb : (k == a) = false := beq_eq_false_iff_ne.mpr hka
        cases hxa : x.lookup a with
        | none => simpa [get_dict_values, List.filterMap_cons, hxa] using ih hkt
        | some w =>
            simp only [get_dict_values, List.filterMap_cons, hxa, Option.map_some',
              List.lookup_cons, hb]
            exact ih hkt

theorem lookup_get_dict_values_of_not_mem (x : SDict) (l : List String) (k : String)
    (hk : k ∉ l) : (get_dict_values x l).lookup k = none := by
  induction l with
  | nil => rfl
  | cons a t ih =>
      have hka : k ≠ a := fun h => hk (h ▸ List.mem_cons_self a t)
      have hkt : k ∉ t := fun h => hk (List.mem_cons_of_mem a h)
      have hb : (k == a) = false := beq_eq_false_iff_ne.mpr hka
      cases hxa : x.lookup a with
      | none => simpa [get_dict_values, List.filterMap_cons, hxa] using ih hkt
      | some w =>
          simp only [get_dict_values, List.filterMap_cons, hxa, Option.map_some',
            List.lookup_cons, hb]
          exact ih hkt

theorem lookup_slice_step (t : Nat) (d : SDict) (k : String) :
    (ARSeriesLoss.slice_step_from_inputs t d).lookup k =
      (d.lookup k).map (PyVal.getitem t) := by
  induction d with
  | nil => rfl
  | cons p r ih =>
      obtain ⟨a, w⟩ := p
      by_cases hka : k = a
      · subst hka
        simp [ARSeriesLoss.slice_step_from_inputs, List.lookup_cons]
      · have hb : (k == a) = false := beq_eq_false_iff_ne.mpr hka
        simpa [ARSeriesLoss.slice_step_from_inputs, List.lookup_cons, hb] using ih

/-! Claim theorems for the AR-loss family. -/

/-- C3: for every ARDRAWLoss with step loss, last loss and step function
present, `estimate` runs `i = 0 .. max_iter - 1` in order, adding the step
loss of the pre-transition state `drawState i` before advancing to
`drawState (i+1) = step_fn i (drawState i)`, then adds the last loss of the
final state; it returns the scalar sum, or the pair of the scalar and the
final state when `return_params` is configured. -/
theorem C3_ardraw_step_before_transition (self : ARLoss) (sl ll : LossObj)
    (hs : self.step_loss = some sl) (hl : self.last_loss = some ll) (x : SDict) :
    ARDRAWLoss.estimate self x =
      some
        (if self.return_params then
          ARResult.withParams
            (((List.range self.max_iter).map
                (fun i => sl.estimate (drawState self x i))).sum
              + ll.estimate (drawState self x self.max_iter))
            (drawState self x self.max_iter)
        else
          ARResult.scalar
            (((List.range self.max_iter).map
                (fun i => sl.estimate (drawState self x i))).sum
              + ll.estimate (drawState self x self.max_iter))) := by
  unfold ARDRAWLoss.estimate
  rw [drawFold self sl hs x self.max_iter]
  cases hr : self.return_params <;> simp [hl, hr]

/-- C3 witness: with `max_iter = 3`, a constant step loss 1.0, the identity
step function and a constant last loss 2.0, `estimate` of the empty dict
returns exactly 5.0. -/
theorem C3_witness :
    ARDRAWLoss.estimate drawL3 [] = some (ARResult.scalar 5) := by
  rw [C3_ardraw_step_before_transition drawL3 (constLoss 1) (constLoss 2) rfl rfl []]
  norm_num [drawL3, ARDRAWLoss.init, ARLoss.init, constLoss, List.range_succ]

theorem seriesFold_none_of_no_step (self : ARSeriesLoss) (hs : self.step_loss = none)
    (sx : SDict) (b : ℚ × SDict) (l : List Nat) (hl : l ≠ []) :
    l.foldlM (self.stepFold sx) b = none := by
  cases l with
  | nil => exact absurd rfl hl
  | cons a t => simp [List.foldlM_cons, ARSeriesLoss.stepFold, hs]

theorem seriesEstimate_char (self : ARSeriesLoss) (sl : LossObj)
    (hs : self.step_loss = some sl) (x : SDict) :
    ARSeriesLoss.estimate self x =
      some
        (match self.last_loss with
         | some ll =>
             if self.return_params then
               ARResult.withParams
                 (((List.range self.max_iter).map
                     (fun t => sl.estimate (seriesState self x (t + 1)))).sum
                   + ll.estimate (SDict.update (seriesState self x self.max_iter)
                       (ARSeriesLoss.slice_step_from_inputs 0
                         (get_dict_values x self.series_var))))
                 (SDict.update
                   (SDict.update (seriesState self x self.max_iter)
                     (ARSeriesLoss.slice_step_from_inputs 0
                       (get_dict_values x self.series_var)))
                   (get_dict_values x self.series_var))
             else
               ARResult.scalar
                 (((List.range self.max_iter).map
                     (fun t => sl.estimate (seriesState self x (t + 1)))).sum
                   + ll.estimate (SDict.update (seriesState self x self.max_iter)
                       (ARSeriesLoss.slice_step_from_inputs 0
                         (get_dict_values x self.series_var))))
         | none =>
             if self.return_params then
               ARResult.withParams
                 (((List.range self.max_iter).map
                     (fun t => sl.estimate (seriesState self x (t + 1)))).sum)
                 (SDict.update (seriesState self x self.max_iter)
                   (get_dict_values x self.series_var))
             else
               ARResult.scalar
                 (((List.range self.max_iter).map
                     (fun t => sl.estimate (seriesState self x (t + 1)))).sum)) := by
  simp only [ARSeriesLoss.estimate]
  rw [seriesFold self sl hs x self.max_iter]
  cases hl : self.last_loss with
  | some ll => cases hr : self.return_params <;> simp [hl, hr]
  | none => cases hr : self.return_params <;> simp [hl, hr]

/-- C4: for every ARSeriesLoss with a step loss present — in every
configuration of last loss and `return_params` — `estimate` iterates
`t = 0 .. max_iter - 1` in order; each step first overwrites the series
entries with their slice at `t`, then applies the user transition, and only
then accumulates the step loss on the post-transition state
`seriesState (t+1)` (slice, transition, then evaluate — the opposite order
from the DRAW variant); the result always carries the sum of those
post-transition step losses, plus the terminal term when a last loss is
present, paired with the final state when `return_params` is configured. -/
theorem C4_series_slice_then_step (self : ARSeriesLoss) (sl : LossObj)
    (hs : self.step_loss = some sl) (x : SDict) :
    ARSeriesLoss.estimate self x =
      some
        (match self.last_loss with
         | some ll =>
             if self.return_params then
               ARResult.withParams
                 (((List.range self.max_iter).map
                     (fun t => sl.estimate (seriesState self x (t + 1)))).sum
                   + ll.estimate (SDict.update (seriesState self x self.max_iter)
                       (ARSeriesLoss.slice_step_from_inputs 0
                         (get_dict_values x self.series_var))))
                 (SDict.update
                   (SDict.update (seriesState self x self.max_iter)
                     (ARSeriesLoss.slice_step_from_inputs 0
                       (get_dict_values x self.series_var)))
                   (get_dict_values x self.series_var))
             else
               ARResult.scalar
                 (((List.range self.max_iter).map
                     (fun t => sl.estimate (seriesState self x (t + 1)))).sum
                   + ll.estimate (SDict.update (seriesState self x self.max_iter)
                       (ARSeriesLoss.slice_step_from_inputs 0
                         (get_dict_values x self.series_var))))
         | none =>
             if self.return_params then
               ARResult.withParams
                 (((List.range self.max_iter).map
                     (fun t => sl.estimate (seriesState self x (t + 1)))).sum)
                 (SDict.update (seriesState self x self.max_iter)
                   (get_dict_values x self.series_var))
             else
               ARResult.scalar
                 (((List.range self.max_iter).map
                     (fun t => sl.estimate (seriesState self x (t + 1)))).sum)) :=
  seriesEstimate_char self sl hs x

/-- C4 witness: with `max_iter = 2`, `series_var = ["x"]`, the input series
`x = [[1.0], [2.0]]`, a step loss returning the current slice value, the
identity transition and no last loss, `estimate` accumulates 1.0 + 2.0 =
3.0. -/
theorem C4_witness :
    ARSeriesLoss.estimate seriesL2 xSeries = some (ARResult.scalar 3) := by
  rw [C4_series_slice_then_step seriesL2 sliceValLoss rfl xSeries,
    show seriesL2.last_loss = none from rfl,
    show seriesL2.return_params = false from rfl,
    show seriesL2.max_iter = 2 from rfl]
  norm_num [show List.range 2 = [0, 1] from rfl,
    show sliceValLoss.estimate (seriesState seriesL2 xSeries 1) = 1 from rfl,
    show sliceValLoss.estimate (seriesState seriesL2 xSeries 2) = 2 from rfl]

/-- C5: for every ARSeriesLoss, whenever step and last losses are present the
last loss is evaluated on the final recurrent state with the series entries
overwritten by their slice at index 0 (not the final index); and whenever
`estimate` returns a state dict (the `return_params` form) — with or without
a last loss — that dict maps every series variable present in the input to
the original untouched full series tensor, and every non-series variable to
its value in the final recurrent state. -/
theorem C5_series_last_slice_zero_and_return (self : ARSeriesLoss) (x : SDict) :
    (∀ (sl ll : LossObj), self.step_loss = some sl → self.last_loss = some ll →
        ARSeriesLoss.estimate self x =
          some
            (if self.return_params then
              ARResult.withParams
                (((List.range self.max_iter).map
                    (fun t => sl.estimate (seriesState self x (t + 1)))).sum
                  + ll.estimate (SDict.update (seriesState self x self.max_iter)
                      (ARSeriesLoss.slice_step_from_inputs 0
                        (get_dict_values x self.series_var))))
                (SDict.update
                  (SDict.update (seriesState self x self.max_iter)
                    (ARSeriesLoss.slice_step_from_inputs 0
                      (get_dict_values x self.series_var)))
                  (get_dict_values x self.series_var))
            else
              ARResult.scalar
                (((List.range self.max_iter).map
                    (fun t => sl.estimate (seriesState self x (t + 1)))).sum
                  + ll.estimate (SDict.update (seriesState self x self.max_iter)
                      (ARSeriesLoss.slice_step_from_inputs 0
                        (get_dict_values x self.series_var))))))
    ∧ (∀ (q : ℚ) (d : SDict),
        ARSeriesLoss.estimate self x = some (ARResult.withParams q d) →
        (∀ (k : String) (v : PyVal), k ∈ self.series_var → x.lookup k = some v →
            d.lookup k = some v)
        ∧ (∀ (k : String), k ∉ self.series_var →
            d.lookup k = (seriesState self x self.max_iter).lookup k)) := by
  have hlook : ∀ (st : SDict),
      (∀ (k : String) (v : PyVal), k ∈ self.series_var → x.lookup k = some v →
        (SDict.update st (get_dict_values x self.series_var)).lookup k = some v)
      ∧ (∀ (k : String), k ∉ self.series_var →
        (SDict.update st (get_dict_values x self.series_var)).lookup k =
          st.lookup k) := by
    intro st
    constructor
    · intro k v hk hv
      show List.lookup k (get_dict_values x self.series_var ++ st) = some v
      rw [List.lookup_append, lookup_get_dict_values_of_mem x self.series_var k v hk hv]
      rfl
    · intro k hk
      show List.lookup k (get_dict_values x self.series_var ++ st) = st.lookup k
      rw [List.lookup_append, lookup_get_dict_values_of_not_mem x self.series_var k hk]
      rfl
  have hslice : ∀ (st : SDict) (k : String), k ∉ self.series_var →
      (SDict.update st (ARSeriesLoss.slice_step_from_inputs 0
        (get_dict_values x self.series_var))).lookup k = st.lookup k := by
    intro st k hk
    show List.lookup k (ARSeriesLoss.slice_step_from_inputs 0
      (get_dict_values x self.series_var) ++ st) = st.lookup k
    rw [List.lookup_append, lookup_slice_step,
      lookup_get_dict_values_of_not_mem x self.series_var k hk]
    rfl
  constructor
  · intro sl ll hsl hll
    rw [seriesEstimate_char self sl hsl x, hll]
  · intro q d hqd
    cases hsl : self.step_loss with
    | some sl =>
        rw [seriesEstimate_char self sl hsl x] at hqd
        cases hll : self.last_loss with
        | some ll =>
            rw [hll] at hqd
            cases hr : self.return_params with
            | false => rw [hr] at hqd; simp at hqd
            | true =>
                rw [hr] at hqd
                simp only [if_true] at hqd
                rw [Option.some.injEq, ARResult.withParams.injEq] at hqd
                obtain ⟨hq, hd⟩ := hqd
                subst hd
                refine ⟨(hlook _).1, fun k hk => ?_⟩
                exact ((hlook _).2 k hk).trans (hslice _ k hk)
        | none =>
            rw [hll] at hqd
            cases hr : self.return_params with
            | false => rw [hr] at hqd; simp at hqd
            | true =>
                rw [hr] at hqd
                simp only [if_true] at hqd
                rw [Option.some.injEq, ARResult.withParams.injEq] at hqd
                obtain ⟨hq, hd⟩ := hqd
                subst hd
                exact ⟨(hlook _).1, (hlook _).2⟩
    | none =>
        cases hn : self.max_iter with
        | zero =>
            simp only [ARSeriesLoss.estimate, hn, List.range_zero, List.foldlM_nil,
              pure_bind] at hqd
            simp only [seriesState]
            cases hll : self.last_loss with
            | some ll =>
                rw [hll] at hqd
                cases hr : self.return_params with
                | false => rw [hr] at hqd; simp at hqd
                | true =>
                    rw [hr] at hqd
                    simp only [if_true, Option.pure_def] at hqd
                    rw [Option.some.injEq, ARResult.withParams.injEq] at hqd
                    obtain ⟨hq, hd⟩ := hqd
                    subst hd
                    refine ⟨(hlook _).1, fun k hk => ?_⟩
                    exact ((hlook _).2 k hk).trans (hslice _ k hk)
            | none =>
                rw [hll] at hqd
                cases hr : self.return_params with
                | false => rw [hr] at hqd; simp at hqd
                | true =>
                    rw [hr] at hqd
                    simp only [if_true, Option.pure_def] at hqd
                    rw [Option.some.injEq, ARResult.withParams.injEq] at hqd
                    obtain ⟨hq, hd⟩ := hqd
                    subst hd
                    exact ⟨(hlook _).1, (hlook _).2⟩
        | succ n2 =>
            have hfold := seriesFold_none_of_no_step self hsl
              (get_dict_values x self.series_var) ((0 : ℚ), x)
              (List.range self.max_iter) (by rw [hn]; simp)
            simp only [ARSeriesLoss.estimate, hfold] at hqd
            simp at hqd

/-- C5 witness: for the concrete two-step series loss with a terminal loss
and `return_params`, the estimate is the pair of 1.0 + 2.0 + 2.0 = 5.0 and a
state whose series entry is the untouched full series tensor. -/
theorem C5_witness :
    (ARSeriesLoss.estimate seriesL5 xSeries =
      some (ARResult.withParams 5
        (SDict.update
          (SDict.update (seriesState seriesL5 xSeries seriesL5.max_iter)
            (ARSeriesLoss.slice_step_from_inputs 0
              (get_dict_values xSeries seriesL5.series_var)))
          (get_dict_values xSeries seriesL5.series_var))))
    ∧ (SDict.update
        (SDict.update (seriesState seriesL5 xSeries seriesL5.max_iter)
          (ARSeriesLoss.slice_step_from_inputs 0
            (get_dict_values xSeries seriesL5.series_var)))
        (get_dict_values xSeries seriesL5.series_var)).lookup "x" =
      some (PyVal.mat [[1], [2]]) := by
  have h := C5_series_last_slice_zero_and_return seriesL5 xSeries
  have he : ARSeriesLoss.estimate seriesL5 xSeries =
      some (ARResult.withParams 5
        (SDict.update
          (SDict.update (seriesState seriesL5 xSeries seriesL5.max_iter)
            (ARSeriesLoss.slice_step_from_inputs 0
              (get_dict_values xSeries seriesL5.series_var)))
          (get_dict_values xSeries seriesL5.series_var))) := by
    rw [h.1 sliceValLoss (constLoss 2) rfl rfl,
      show seriesL5.return_params = true from rfl]
    norm_num [show seriesL5.max_iter = 2 from rfl, show List.range 2 = [0, 1] from rfl,
      constLoss,
      show sliceValLoss.estimate (seriesState seriesL5 xSeries 1) = 1 from rfl,
      show sliceValLoss.estimate (seriesState seriesL5 xSeries 2) = 2 from rfl]
  exact ⟨he, (h.2 5 _ he).1 "x" (PyVal.mat [[1], [2]]) (by decide) (by decide)⟩

/-- C7: AR-loss construction performs no validation — the DRAW constructor
stores any configuration verbatim, a `None` last loss included — and for
every ARDRAWLoss whose last loss is absent, `estimate` fails (returns no
value) on every input, because `last_loss` is dereferenced unconditionally
after the step loop; the missing last loss is never silently skipped. -/
theorem C7_ardraw_missing_last_loss_fatal :
    (∀ (sl llo : Option LossObj) (f : Nat → SDict → SDict) (n : Nat) (rp : Bool)
        (iv inp : Option (List String)),
        (ARDRAWLoss.init sl llo f n rp iv inp).last_loss = llo ∧
        (ARDRAWLoss.init sl llo f n rp iv inp).step_loss = sl ∧
        (ARDRAWLoss.init sl llo f n rp iv inp).max_iter = n)
    ∧ (∀ (self : ARLoss), self.last_loss = none → ∀ (x : SDict),
        ARDRAWLoss.estimate self x = none) := by
  constructor
  · intro sl llo f n rp iv inp
    exact ⟨rfl, rfl, rfl⟩
  · intro self h x
    unfold ARDRAWLoss.estimate
    cases hf : (List.range self.max_iter).foldlM (ARDRAWLoss.stepFold self) ((0 : ℚ), x) with
    | none => simp [hf]
    | some p => simp [hf, h]

/-- C7 witness: the concrete DRAW loss built without a last loss is
constructed (its last loss is stored as absent) and its estimate of the empty
dict fails. -/
theorem C7_witness :
    drawLnone.last_loss = none ∧ ARDRAWLoss.estimate drawLnone [] = none := by
  refine ⟨(C7_ardraw_missing_last_loss_fatal.1 (some (constLoss 1)) none idStep 2
    false none none).1, ?_⟩
  exact C7_ardraw_missing_last_loss_fatal.2 drawLnone rfl []

/-- C10: ARDRAWLoss forwards its `initial_var` and `input_var` constructor
arguments positionally into each other's slots of the base constructor: the
supplied `input_var` is stored as `initial_var`, a supplied `initial_var`
becomes the declared `input_var`, and with no `initial_var` supplied the
declared `input_var` falls back to the de-duplicated union of the sub-loss
inputs; ARLoss and ARSeriesLoss store the two arguments under their proper
names. -/
theorem C10_ardraw_init_swaps_var_slots :
    (∀ (sl llo : Option LossObj) (f : Nat → SDict → SDict) (n : Nat) (rp : Bool)
        (iv inp : Option (List String)),
        (ARDRAWLoss.init sl llo f n rp iv inp).initial_var = inp)
    ∧ (∀ (sl llo : Option LossObj) (f : Nat → SDict → SDict) (n : Nat) (rp : Bool)
        (v : List String) (inp : Option (List String)),
        (ARDRAWLoss.init sl llo f n rp (some v) inp).input_var = v)
    ∧ (∀ (sl llo : Option LossObj) (f : Nat → SDict → SDict) (n : Nat) (rp : Bool)
        (inp : Option (List String)),
        (ARDRAWLoss.init sl llo f n rp none inp).input_var =
          dedupFirst
            ((match llo with | some l => l.input_var | none => []) ++
             (match sl with | some s => s.input_var | none => [])))
    ∧ (∀ (sl llo : Option LossObj) (f : Nat → SDict → SDict) (n : Nat) (rp : Bool)
        (iv : Option (List String)) (v : List String),
        (ARLoss.init sl llo f n rp (some v) iv).input_var = v ∧
        (ARLoss.init sl llo f n rp (some v) iv).initial_var = iv)
    ∧ (∀ (sl llo : Option LossObj) (f : Nat → SDict → SDict) (n : Nat) (rp : Bool)
        (sv v : List String),
        (ARSeriesLoss.init sl llo f n rp sv (some v)).input_var = v ∧
        (ARSeriesLoss.init sl llo f n rp sv (some v)).initial_var = none ∧
        (ARSeriesLoss.init sl llo f n rp sv (some v)).series_var = sv) := by
  refine ⟨?_, ?_, ?_, ?_, ?_⟩
  · intro sl llo f n rp iv inp; rfl
  · intro sl llo f n rp v inp; rfl
  · intro sl llo f n rp inp; rfl
  · intro sl llo f n rp iv v; exact ⟨rfl, rfl⟩
  · intro sl llo f n rp sv v; exact ⟨rfl, rfl, rfl⟩

/-! Helper lemmas for the mixture engine. -/

theorem getD_map_lt {α : Type} {β : Type} (f : α → β) (l : List α) (j : Nat)
    (h : j < l.length) (d : β) (d0 : α) : (l.map f).getD j d = f (l.getD j d0) := by
  rw [List.getD_eq_get _ d (by simpa using h), List.getD_eq_get _ d0 h]
  simp

theorem getD_range_map {α : Type} (f : Nat → α) (K i : Nat) (d : α) (h : i < K) :
    ((List.range K).map f).getD i d = f i := by
  rw [List.getD_eq_get _ d (by simpa using h)]
  simp

theorem headD_eq_getD {α : Type} (l : List α) (d : α) : l.headD d = l.getD 0 d := by
  cases l <;> rfl

theorem sum_map_exp_pos (l : List Tensor) (g : Tensor → ℝ) (hl : l ≠ []) :
    0 < (l.map (fun r => Real.exp (g r))).sum := by
  refine List.sum_pos _ ?_ ?_
  · intro y hy
    rcases List.mem_map.mp hy with ⟨r, _, rfl⟩
    exact Real.exp_pos (g r)
  · simpa using hl

theorem logsumexp_eq_log_sum_exp (l : Tensor) (hl : l ≠ []) :
    logsumexp l = Real.log ((l.map Real.exp).sum) := by
  match l, hl with
  | a :: t, _ =>
    show t.foldl max a +
        Real.log (((a :: t).map (fun b => Real.exp (b - t.foldl max a))).sum) = _
    have h1 : (a :: t).map (fun b => Real.exp (b - t.foldl max a)) =
        (a :: t).map (fun b => Real.exp b * Real.exp (-(t.foldl max a))) := by
      refine List.map_congr_left (fun b _ => ?_)
      rw [Real.exp_sub, Real.exp_neg, div_eq_mul_inv]
    have hS : 0 < ((a :: t).map Real.exp).sum := by
      refine List.sum_pos _ ?_ ?_
      · intro y hy
        rcases List.mem_map.mp hy with ⟨b, _, rfl⟩
        exact Real.exp_pos b
      · simp
    rw [h1, List.sum_map_mul_right, Real.log_mul (ne_of_gt hS) (Real.exp_ne_zero _),
      Real.log_exp]
    ring

theorem sum_list_range_eq_finset (n : Nat) (f : Nat → ℝ) :
    ((List.range n).map f).sum = ∑ i ∈ Finset.range n, f i := by
  induction n with
  | zero => simp
  | succ n ih =>
      rw [List.range_succ, List.map_append, List.sum_append, Finset.sum_range_succ, ih]
      simp

theorem swapIdx_eq_swap (a b i : Nat) : swapIdx a b i = Equiv.swap a b i := by
  rw [Equiv.swap_apply_def]
  rfl

theorem sum_range_swapIdx (K a b : Nat) (ha : a < K) (hb : b < K) (f : Nat → ℝ) :
    ((List.range K).map (fun i => f (swapIdx a b i))).sum =
      ((List.range K).map f).sum := by
  rw [sum_list_range_eq_finset, sum_list_range_eq_finset]
  refine Finset.sum_equiv (Equiv.swap a b) ?_ ?_
  · intro i
    simp only [Finset.mem_range, Equiv.swap_apply_def]
    split_ifs <;> omega
  · intro i _
    rw [swapIdx_eq_swap]

theorem llah_length (self : MixtureModel) (x : Tensor) :
    (self.log_likelihood_all_hidden x).length = self.distributions.length := by
  simp [MixtureModel.log_likelihood_all_hidden]

theorem llah_getD (self : MixtureModel) (x : Tensor) (i : Nat)
    (h : i < self.distributions.length) :
    (self.log_likelihood_all_hidden x).getD i [] =
      ((self.distributions.getD i defaultDist).log_likelihood x).map
        (fun a => a + self.prior.prior_log_likelihood
          (oneHot self.distributions.length i)) := by
  simp only [MixtureModel.log_likelihood_all_hidden]
  rw [getD_range_map _ _ _ _ h]

theorem llah_row_length (self : MixtureModel) (x : Tensor)
    (hlen : ∀ d ∈ self.distributions, (d.log_likelihood x).length = x.length)
    (i : Nat) (h : i < self.distributions.length) :
    ((self.log_likelihood_all_hidden x).getD i []).length = x.length := by
  rw [llah_getD self x i h, List.length_map]
  refine hlen _ ?_
  rw [List.getD_eq_get self.distributions defaultDist h]
  exact List.get_mem _ _ _

theorem llah_head_length (self : MixtureModel) (x : Tensor)
    (hK : self.distributions ≠ [])
    (hlen : ∀ d ∈ self.distributions, (d.log_likelihood x).length = x.length) :
    ((self.log_likelihood_all_hidden x).headD []).length = x.length := by
  rw [headD_eq_getD]
  exact llah_row_length self x hlen 0 (List.length_pos.mpr hK)

theorem ll_length (self : MixtureModel) (x : Tensor)
    (hK : self.distributions ≠ [])
    (hlen : ∀ d ∈ self.distributions, (d.log_likelihood x).length = x.length) :
    (self.log_likelihood x).length = x.length := by
  simp only [MixtureModel.log_likelihood, logsumexp_dim0, List.length_map,
    List.length_range]
  exact llah_head_length self x hK hlen

theorem ll_getD (self : MixtureModel) (x : Tensor)
    (hK : self.distributions ≠ [])
    (hlen : ∀ d ∈ self.distributions, (d.log_likelihood x).length = x.length)
    (j : Nat) (hj : j < x.length) :
    (self.log_likelihood x).getD j 0 =
      logsumexp ((self.log_likelihood_all_hidden x).map (fun r => r.getD j 0)) := by
  have hj2 : j < ((self.log_likelihood_all_hidden x).headD []).length := by
    rw [llah_head_length self x hK hlen]
    exact hj
  simp only [MixtureModel.log_likelihood, logsumexp_dim0]
  rw [getD_range_map _ _ _ _ hj2]

theorem llah_ne_nil (self : MixtureModel) (x : Tensor) (hK : self.distributions ≠ []) :
    self.log_likelihood_all_hidden x ≠ [] := by
  intro h
  apply hK
  have := llah_length self x
  rw [h] at this
  exact List.length_eq_zero.mp this.symm

theorem ll_getD_log (self : MixtureModel) (x : Tensor)
    (hK : self.distributions ≠ [])
    (hlen : ∀ d ∈ self.distributions, (d.log_likelihood x).length = x.length)
    (j : Nat) (hj : j < x.length) :
    (self.log_likelihood x).getD j 0 =
      Real.log (((self.log_likelihood_all_hidden x).map
        (fun r => Real.exp (r.getD j 0))).sum) := by
  rw [ll_getD self x hK hlen j hj,
    logsumexp_eq_log_sum_exp _ (by
      intro h
      exact llah_ne_nil self x hK (List.map_eq_nil.mp h)),
    List.map_map]
  rfl

/-! Claim theorems for the mixture engine. -/

/-- C1: for every mixture and every batch of the shared variable, the joint
table `log_likelihood_all_hidden` has one row per component, its entry
`(i, j)` being component `i`'s log-likelihood of example `j` plus the prior's
log-probability of the one-hot of `i`; and `log_likelihood` is exactly the
stable log-sum-exp (`logsumexp_dim0`, which subtracts the maximum before
exponentiating) of that table along the component axis, whose value at every
example equals the mathematical `log (sum (exp (...)))` of the joint column —
so the marginal is the log-sum-exp of the joint table, computed stably, never
by the naive unshifted formula. -/
theorem C1_marginal_is_stable_logsumexp (self : MixtureModel) (x : Tensor)
    (hK : self.distributions ≠ [])
    (hlen : ∀ d ∈ self.distributions, (d.log_likelihood x).length = x.length) :
    (self.log_likelihood_all_hidden x).length = self.distributions.length
    ∧ (∀ (i : Nat), i < self.distributions.length → ∀ (j : Nat), j < x.length →
        ((self.log_likelihood_all_hidden x).getD i []).getD j 0 =
          ((self.distributions.getD i defaultDist).log_likelihood x).getD j 0
            + self.prior.prior_log_likelihood (oneHot self.distributions.length i))
    ∧ (self.log_likelihood x).length = x.length
    ∧ self.log_likelihood x = logsumexp_dim0 (self.log_likelihood_all_hidden x)
    ∧ (∀ (j : Nat), j < x.length →
        (self.log_likelihood x).getD j 0 =
          Real.log (((self.log_likelihood_all_hidden x).map
            (fun r => Real.exp (r.getD j 0))).sum)) := by
  refine ⟨llah_length self x, ?_, ll_length self x hK hlen, rfl,
    fun j hj => ll_getD_log self x hK hlen j hj⟩
  intro i hi j hj
  rw [llah_getD self x i hi]
  have hb : j < ((self.distributions.getD i defaultDist).log_likelihood x).length := by
    rw [List.getD_eq_get self.distributions defaultDist hi]
    rw [hlen _ (List.get_mem _ _ _)]
    exact hj
  exact getD_map_lt _ _ j hb 0 0

/-- C1 witness: for the concrete two-component mixture on the one-example
batch, the joint table has two rows and the marginal log-likelihood one
entry. -/
theorem C1_witness :
    (mixW.log_likelihood_all_hidden xBatch).length = 2
    ∧ (mixW.log_likelihood xBatch).length = 1 := by
  have hK : mixW.distributions ≠ [] := by simp [mixW]
  have hlen : ∀ d ∈ mixW.distributions, (d.log_likelihood xBatch).length = xBatch.length := by
    intro d hd
    simp only [mixW] at hd
    rcases List.mem_cons.mp hd with rfl | hd2
    · rfl
    · rcases List.mem_cons.mp hd2 with rfl | h
      · rfl
      · exact absurd h (List.not_mem_nil d)
  have h := C1_marginal_is_stable_logsumexp mixW xBatch hK hlen
  exact ⟨h.1.trans rfl, h.2.2.1.trans rfl⟩

/-- C2: mixture construction runs its four validation checks in order — a
non-list `distributions` argument fails first; then a non-categorical prior
fails regardless of the later conditions; then a prior whose `probs` length
differs from the component count fails regardless of the variable condition;
then components not sharing exactly one deduplicated variable name fail —
each with its own distinct error, and every valid input constructs a mixture
storing the components, prior, shared variable and hidden variable. -/
theorem C2_init_validation_order :
    (∀ (p : Dist) (nm : String),
        MixtureModel.init DistsArg.notList p nm =
          Except.error MixtureError.InvalidArgument)
    ∧ (∀ (ds : List Dist) (p : Dist) (nm : String),
        p.distribution_name ≠ "Categorical" →
        MixtureModel.init (DistsArg.list ds) p nm =
          Except.error MixtureError.InvalidPrior)
    ∧ (∀ (ds : List Dist) (p : Dist) (nm : String),
        p.distribution_name = "Categorical" → p.probs.length ≠ ds.length →
        MixtureModel.init (DistsArg.list ds) p nm =
          Except.error MixtureError.MixtureSizeMismatch)
    ∧ (∀ (ds : List Dist) (p : Dist) (nm : String),
        p.distribution_name = "Categorical" → p.probs.length = ds.length →
        (dedupFirst (ds.foldl (fun acc d => acc ++ d.var) [])).length ≠ 1 →
        MixtureModel.init (DistsArg.list ds) p nm =
          Except.error MixtureError.HeterogeneousVariable)
    ∧ (∀ (ds : List Dist) (p : Dist) (nm : String),
        p.distribution_name = "Categorical" → p.probs.length = ds.length →
        (dedupFirst (ds.foldl (fun acc d => acc ++ d.var) [])).length = 1 →
        ∃ mm, MixtureModel.init (DistsArg.list ds) p nm = Except.ok mm ∧
          mm.distributions = ds ∧ mm.prior = p ∧
          mm.var = dedupFirst (ds.foldl (fun acc d => acc ++ d.var) []) ∧
          mm.hidden_var = p.var ∧ mm.name = nm) := by
  refine ⟨fun p nm => rfl, ?_, ?_, ?_, ?_⟩
  · intro ds p nm h
    simp [MixtureModel.init, h]
  · intro ds p nm h1 h2
    simp [MixtureModel.init, h1, h2]
  · intro ds p nm h1 h2 h3
    simp [MixtureModel.init, h1, h2, h3]
  · intro ds p nm h1 h2 h3
    refine ⟨MixtureModel.mk ds p
      (dedupFirst (ds.foldl (fun acc d => acc ++ d.var) [])) p.var nm,
      ?_, rfl, rfl, rfl, rfl, rfl⟩
    simp [MixtureModel.init, h1, h2, h3]

/-- C2 witness: a categorical prior with two probabilities and two components
sharing the variable `x` constructs successfully and stores its parts. -/
theorem C2_witness :
    (priorW 3 5).distribution_name = "Categorical"
    ∧ (priorW 3 5).probs.length = [compId "p_0", compShift "p_1"].length
    ∧ ∃ mm, MixtureModel.init (DistsArg.list [compId "p_0", compShift "p_1"])
          (priorW 3 5) "p" = Except.ok mm ∧
        mm.distributions = [compId "p_0", compShift "p_1"] ∧
        mm.prior = priorW 3 5 ∧
        mm.var = dedupFirst ([compId "p_0", compShift "p_1"].foldl
          (fun acc d => acc ++ d.var) []) ∧
        mm.hidden_var = (priorW 3 5).var ∧ mm.name = "p" := by
  refine ⟨rfl, rfl, ?_⟩
  refine C2_init_validation_order.2.2.2.2 [compId "p_0", compShift "p_1"]
    (priorW 3 5) "p" rfl rfl ?_
  simp [dedupFirst, compId, compShift]

theorem getD_zipWith_lt (f : ℝ → ℝ → ℝ) (l l' : List ℝ) (j : Nat)
    (h : j < l.length) (h' : j < l'.length) (d d1 d2 : ℝ) :
    (List.zipWith f l l').getD j d = f (l.getD j d1) (l'.getD j d2) := by
  rw [List.getD_eq_get _ d (by rw [List.length_zipWith]; omega),
    List.getD_eq_get _ d1 h, List.getD_eq_get _ d2 h']
  simp [List.getElem_zipWith]

theorem mem_llah_length (self : MixtureModel) (x : Tensor)
    (hlen : ∀ d ∈ self.distributions, (d.log_likelihood x).length = x.length) :
    ∀ row ∈ self.log_likelihood_all_hidden x, row.length = x.length := by
  intro row hrow
  simp only [MixtureModel.log_likelihood_all_hidden] at hrow
  rcases List.mem_map.mp hrow with ⟨i, hi, rfl⟩
  have hiK : i < self.distributions.length := List.mem_range.mp hi
  simp only [List.length_map]
  refine hlen _ ?_
  rw [List.getD_eq_get self.distributions defaultDist hiK]
  exact List.get_mem _ _ _

theorem gp_eq_map (self : MixtureModel) (x : Tensor) :
    self.get_posterior_probs x =
      (self.log_likelihood_all_hidden x).map (fun row =>
        (List.zipWith (fun a b => a - b) row (self.log_likelihood x)).map Real.exp) := by
  simp [MixtureModel.get_posterior_probs, List.map_map]

/-- C6: for every mixture and batch, `get_posterior_probs` has shape
(K, batch), its entry `(i, j)` is the exponential of the joint log-likelihood
entry minus the marginal log-likelihood of example `j` (the subtraction is
performed in log-space and exponentiated only at the end), and the
responsibilities of every example sum to exactly 1 across the component
axis. -/
theorem C6_posterior_probs (self : MixtureModel) (x : Tensor)
    (hK : self.distributions ≠ [])
    (hlen : ∀ d ∈ self.distributions, (d.log_likelihood x).length = x.length) :
    (self.get_posterior_probs x).length = self.distributions.length
    ∧ (∀ (i : Nat), i < self.distributions.length →
        ((self.get_posterior_probs x).getD i []).length = x.length)
    ∧ (∀ (i : Nat), i < self.distributions.length → ∀ (j : Nat), j < x.length →
        ((self.get_posterior_probs x).getD i []).getD j 0 =
          Real.exp (((self.log_likelihood_all_hidden x).getD i []).getD j 0
            - (self.log_likelihood x).getD j 0))
    ∧ (∀ (j : Nat), j < x.length →
        ((self.get_posterior_probs x).map (fun row => row.getD j 0)).sum = 1) := by
  have hBll := ll_length self x hK hlen
  have hrowlen := mem_llah_length self x hlen
  have hrow : ∀ (i : Nat), i < self.distributions.length →
      (self.get_posterior_probs x).getD i [] =
        (List.zipWith (fun a b => a - b) ((self.log_likelihood_all_hidden x).getD i [])
          (self.log_likelihood x)).map Real.exp := by
    intro i hi
    rw [gp_eq_map]
    exact getD_map_lt _ _ i (by rw [llah_length]; exact hi) [] []
  refine ⟨?_, ?_, ?_, ?_⟩
  · rw [gp_eq_map, List.length_map, llah_length]
  · intro i hi
    rw [hrow i hi, List.length_map, List.length_zipWith,
      llah_row_length self x hlen i hi, hBll, Nat.min_self]
  · intro i hi j hj
    rw [hrow i hi]
    have h1 : j < ((self.log_likelihood_all_hidden x).getD i []).length := by
      rw [llah_row_length self x hlen i hi]; exact hj
    have h2 : j < (self.log_likelihood x).length := by rw [hBll]; exact hj
    rw [getD_map_lt Real.exp _ j (by rw [List.length_zipWith]; omega) 0 0,
      getD_zipWith_lt _ _ _ j h1 h2 0 0 0]
  · intro j hj
    have hcol : (self.get_posterior_probs x).map (fun row => row.getD j 0) =
        (self.log_likelihood_all_hidden x).map (fun row =>
          Real.exp (row.getD j 0) * Real.exp (-((self.log_likelihood x).getD j 0))) := by
      rw [gp_eq_map, List.map_map]
      refine List.map_congr_left (fun row hrw => ?_)
      have h1 : j < row.length := by rw [hrowlen row hrw]; exact hj
      have h2 : j < (self.log_likelihood x).length := by rw [hBll]; exact hj
      show ((List.zipWith (fun a b => a - b) row (self.log_likelihood x)).map
        Real.exp).getD j 0 = _
      rw [getD_map_lt Real.exp _ j (by rw [List.length_zipWith]; omega) 0 0,
        getD_zipWith_lt _ _ _ j h1 h2 0 0 0, Real.exp_sub, Real.exp_neg, div_eq_mul_inv]
    rw [hcol, List.sum_map_mul_right, ll_getD_log self x hK hlen j hj, Real.exp_neg,
      Real.exp_log (sum_map_exp_pos _ _ (llah_ne_nil self x hK))]
    exact mul_inv_cancel₀
      (ne_of_gt (sum_map_exp_pos _ (fun r => r.getD j 0) (llah_ne_nil self x hK)))

/-- C6 witness: for the concrete two-component mixture on the one-example
batch, the responsibilities of the single example sum to 1. -/
theorem C6_witness :
    ((mixW.get_posterior_probs xBatch).map (fun row => row.getD 0 0)).sum = 1 := by
  have hK : mixW.distributions ≠ [] := by simp [mixW]
  have hlen : ∀ d ∈ mixW.distributions,
      (d.log_likelihood xBatch).length = xBatch.length := by
    intro d hd
    simp only [mixW] at hd
    rcases List.mem_cons.mp hd with rfl | hd2
    · rfl
    · rcases List.mem_cons.mp hd2 with rfl | h
      · rfl
      · exact absurd h (List.not_mem_nil d)
  exact (C6_posterior_probs mixW xBatch hK hlen).2.2.2 0 (by norm_num [xBatch])

/-- C9: `sample` performs `batch_size` draws in order, the `i`-th drawing the
hidden vector `sample_hidden i` from the prior and one primary sample from
the component indexed by that vector's arg-max; the returned primary tensor
is the batch-axis concatenation of the per-draw samples and has batch
dimension `batch_size`, and the hidden tensor (the concatenation of the drawn
hidden vectors, also of batch dimension `batch_size`) is present exactly when
`return_hidden` is requested. -/
theorem C9_sample_batch (self : MixtureModel) (N : Nat) (r : Bool) :
    (self.sample N r).varOut =
      (List.range N).map (fun i =>
        (self.distributions.getD (Tensor.argmax (self.prior.sample_hidden i))
          defaultDist).sample_var i)
    ∧ (self.sample N r).varOut.length = N
    ∧ (self.sample N r).hiddenOut =
        (if r then some ((List.range N).map (fun i => self.prior.sample_hidden i))
         else none)
    ∧ ((List.range N).map (fun i => self.prior.sample_hidden i)).length = N := by
  have hfold : ∀ (n : Nat),
      (List.range n).foldl (self.sampleStep) ([], []) =
        ((List.range n).map (fun i => self.prior.sample_hidden i),
         (List.range n).map (fun i =>
           (self.distributions.getD (Tensor.argmax (self.prior.sample_hidden i))
             defaultDist).sample_var i)) := by
    intro n
    induction n with
    | zero => simp
    | succ n ih =>
        rw [List.range_succ, List.foldl_append, ih]
        simp [MixtureModel.sampleStep, List.range_succ]
  refine ⟨?_, ?_, ?_, by simp⟩
  · show ((List.range N).foldl (self.sampleStep) ([], [])).2 = _
    rw [hfold N]
  · show ((List.range N).foldl (self.sampleStep) ([], [])).2.length = N
    rw [hfold N]
    simp
  · show (if r then some ((List.range N).foldl (self.sampleStep) ([], [])).1 else none) = _
    rw [hfold N]

theorem list_ext_getD {α : Type} (l l' : List α) (d : α) (hl : l.length = l'.length)
    (h : ∀ i, i < l.length → l.getD i d = l'.getD i d) : l = l' := by
  refine List.ext_getElem hl ?_
  intro i h1 h2
  have hh := h i h1
  rwa [List.getD_eq_get l d h1, List.getD_eq_get l' d h2, List.get_eq_getElem,
    List.get_eq_getElem] at hh

theorem map_eq_range_map_getD {α β : Type} (g : α → β) (l : List α) (d : α) :
    l.map g = (List.range l.length).map (fun i => g (l.getD i d)) := by
  refine List.ext_getElem (by simp) ?_
  intro i h1 h2
  have hi : i < l.length := by simpa using h1
  simp only [List.getElem_map, List.getElem_range]
  rw [List.getD_eq_getElem l d hi]

/-- C8: swapping two components of a mixture together with the corresponding
two prior log-probabilities (the prior scores the one-hot of `i` as the
original prior scores the one-hot of the swapped index) leaves
`log_likelihood` unchanged on every batch. -/
theorem C8_component_swap_invariance (m m' : MixtureModel) (x : Tensor) (a b : Nat)
    (ha : a < m.distributions.length) (hb : b < m.distributions.length)
    (hd : m'.distributions = swapList m.distributions a b)
    (hp : ∀ (i : Nat), i < m.distributions.length →
        m'.prior.prior_log_likelihood (oneHot m.distributions.length i) =
          m.prior.prior_log_likelihood (oneHot m.distributions.length (swapIdx a b i)))
    (hK : m.distributions ≠ [])
    (hlen : ∀ d ∈ m.distributions, (d.log_likelihood x).length = x.length) :
    m'.log_likelihood x = m.log_likelihood x := by
  have hK0 : 0 < m.distributions.length := List.length_pos.mpr hK
  have hK' : m'.distributions.length = m.distributions.length := by
    rw [hd]; simp [swapList]
  have hσ : ∀ i, i < m.distributions.length →
      swapIdx a b i < m.distributions.length := by
    intro i hi
    unfold swapIdx
    split_ifs <;> omega
  have hllah : m'.log_likelihood_all_hidden x =
      (List.range m.distributions.length).map (fun i =>
        (m.log_likelihood_all_hidden x).getD (swapIdx a b i) []) := by
    refine list_ext_getD _ _ [] (by rw [llah_length, hK']; simp) ?_
    intro i hi
    have hiK : i < m.distributions.length := by
      rwa [llah_length, hK'] at hi
    rw [getD_range_map _ _ _ _ hiK, llah_getD m' x i (by rw [hK']; exact hiK),
      llah_getD m x (swapIdx a b i) (hσ i hiK)]
    have hdist : m'.distributions.getD i defaultDist =
        m.distributions.getD (swapIdx a b i) defaultDist := by
      rw [hd]
      unfold swapList
      exact getD_range_map _ _ _ _ hiK
    rw [hdist, hK', hp i hiK]
  have hB' : ((m'.log_likelihood_all_hidden x).headD []).length = x.length := by
    rw [headD_eq_getD, hllah, getD_range_map _ _ _ _ hK0]
    exact llah_row_length m x hlen _ (hσ 0 hK0)
  have hB : ((m.log_likelihood_all_hidden x).headD []).length = x.length :=
    llah_head_length m x hK hlen
  simp only [MixtureModel.log_likelihood, logsumexp_dim0]
  rw [hB', hB]
  refine List.map_congr_left (fun j hj => ?_)
  have hcol' : (m'.log_likelihood_all_hidden x).map (fun r => r.getD j 0) =
      (List.range m.distributions.length).map (fun i =>
        ((m.log_likelihood_all_hidden x).getD (swapIdx a b i) []).getD j 0) := by
    rw [hllah, List.map_map]
    rfl
  have hcol : (m.log_likelihood_all_hidden x).map (fun r => r.getD j 0) =
      (List.range m.distributions.length).map (fun i =>
        ((m.log_likelihood_all_hidden x).getD i []).getD j 0) := by
    rw [map_eq_range_map_getD (fun r => r.getD j 0) (m.log_likelihood_all_hidden x) [],
      llah_length]
  have hmapne : ∀ (f : Nat → ℝ), (List.range m.distributions.length).map f ≠ [] := by
    intro f h
    have hlen0 := congrArg List.length h
    rw [List.length_map, List.length_range, List.length_nil] at hlen0
    omega
  rw [hcol', hcol, logsumexp_eq_log_sum_exp _ (hmapne _),
    logsumexp_eq_log_sum_exp _ (hmapne _), List.map_map, List.map_map]
  congr 1
  exact sum_range_swapIdx m.distributions.length a b ha hb
    (fun i => Real.exp (((m.log_likelihood_all_hidden x).getD i []).getD j 0))

/-- C8 witness: the concrete two-component mixture and its swapped variant
have equal marginal log-likelihoods on the one-example batch. -/
theorem C8_witness :
    mixWswap.log_likelihood xBatch = mixW.log_likelihood xBatch := by
  have h2 : mixW.distributions.length = 2 := rfl
  have hd : mixWswap.distributions = swapList mixW.distributions 0 1 := by
    show _ = swapList [compId "p_0", compShift "p_1"] 0 1
    rfl
  have hp : ∀ (i : Nat), i < mixW.distributions.length →
      mixWswap.prior.prior_log_likelihood (oneHot mixW.distributions.length i) =
        mixW.prior.prior_log_likelihood
          (oneHot mixW.distributions.length (swapIdx 0 1 i)) := by
    intro i hi
    rw [h2] at hi ⊢
    interval_cases i <;>
      norm_num [mixWswap, mixW, priorW, swapIdx, oneHot,
        show List.range 2 = [0, 1] from rfl, List.getD]
  have hK : mixW.distributions ≠ [] := by simp [mixW]
  have hlen : ∀ d ∈ mixW.distributions,
      (d.log_likelihood xBatch).length = xBatch.length := by
    intro d hd2
    simp only [mixW] at hd2
    rcases List.mem_cons.mp hd2 with rfl | hd3
    · rfl
    · rcases List.mem_cons.mp hd3 with rfl | h
      · rfl
      · exact absurd h (List.not_mem_nil d)
  exact C8_component_swap_invariance mixW mixWswap xBatch 0 1 (by decide) (by decide)
    hd hp hK hlen

end Pixyz
